import Mathlib

/-!
Shallow embedding of the thread-caching memory allocator in
`src/mem_allocator/allocator.cpp` / `allocator.h`.

Modelling conventions:
* addresses, page ids and sizes (`size_t`) are `Nat`;
* the C++ `int` counters (`TransferCache::count`, `ThreadCache::list_lengths`)
  are `Int`;
* an intrusive singly linked free list is modelled as the `List Nat` of the
  block (header) addresses in chain order from the head;
* the `std::unordered_map<size_t, Span*>` page map is an association list
  with unique keys (insertion overwrites, erasure removes the key);
* written block headers are an association list from header address to the
  stored size, read with default 0 (an unwritten header is junk in C++ and
  is never read on the paths we verify);
* the OS `mmap` call is an explicit parameter `os : Option Nat`: `some start`
  means the OS returns a fresh region starting at page id `start`,
  `none` means `MAP_FAILED`.
-/

/-- `PAGE_SHIFT = 12`, so a page is `2^12 = 4096` bytes (allocator.cpp line 12). -/
def PAGE_SHIFT : Nat := 12

/-- Bytes per page, `1 <<< PAGE_SHIFT`. -/
def pageBytes : Nat := 4096

/-- `SIZE_CLASSES[] = {8, 16, 32, 64, 128, 256, 512, 1024}` (line 13). -/
def SIZE_CLASSES : List Nat := [8, 16, 32, 64, 128, 256, 512, 1024]

/-- `MAX_SMALL_ALLOC_SIZE = 1024` (line 14). -/
def MAX_SMALL_ALLOC_SIZE : Nat := 1024

/-- `SCAVENGE_THRESHOLD = 128` (line 15), a C++ `int`. -/
def SCAVENGE_THRESHOLD : Int := 128

/-- `sizeof(MyAllocator::BlockHeader)`: one `size_t`, 8 bytes on x86-64. -/
def sizeofBlockHeader : Nat := 8

/-- `sizeof(MyAllocator::Span)`: two `size_t`, two pointers and a padded
`bool`, 40 bytes on x86-64. -/
def sizeofSpan : Nat := 40

/-- `sizeof(span_memory) = 4096 * 10` (line 18): the fixed bump pool for
span descriptors. -/
def spanMemorySize : Nat := 4096 * 10

/-- `MyAllocator::Span`: only the fields the code reads (`next`, `prev`,
`is_free` are written once and never consulted). -/
structure Span where
  start_page_id : Nat
  num_pages : Nat
  deriving DecidableEq, Repr

instance : Inhabited Span := ⟨⟨0, 0⟩⟩

/-- `page_map[k] = v` on an `unordered_map`: overwrite the key. -/
def mapInsert (m : List (Nat × Span)) (k : Nat) (v : Span) : List (Nat × Span) :=
  (k, v) :: m.filter (fun e => e.1 != k)

/-- `page_map.erase(k)` on an `unordered_map`. -/
def mapErase (m : List (Nat × Span)) (k : Nat) : List (Nat × Span) :=
  m.filter (fun e => e.1 != k)

/-- `page_map.find(k)` on an `unordered_map`. -/
def mapFind (m : List (Nat × Span)) (k : Nat) : Option Span :=
  (m.find? (fun e => e.1 == k)).map Prod.snd

/-- The loop `for (i = 0; i < n; ++i) page_map[start + i] = span;`
(allocator.cpp lines 74-76), unrolled from the last iteration. -/
def insertRange (m : List (Nat × Span)) (start : Nat) (sp : Span) : Nat → List (Nat × Span)
  | 0 => m
  | n + 1 => mapInsert (insertRange m start sp n) (start + n) sp

/-- The loop `for (i = 0; i < n; ++i) page_map.erase(start + i);`
(allocator.cpp lines 83-85), unrolled from the last iteration. -/
def eraseRange (m : List (Nat × Span)) (start : Nat) : Nat → List (Nat × Span)
  | 0 => m
  | n + 1 => mapErase (eraseRange m start n) (start + n)

/-- `MyAllocator::PageHeap`: the page-id → span ownership index together
with the bump offset of the global span-descriptor pool
(`span_offset`, line 19). -/
structure PageHeap where
  page_map : List (Nat × Span)
  span_offset : Nat
  deriving DecidableEq, Repr

/-- `MyAllocator::PageHeap::lookupSpan` (lines 46-51): shift the address by
`PAGE_SHIFT` and look the page id up in the index. -/
def PageHeap.lookupSpan (h : PageHeap) (ptr : Nat) : Option Span :=
  mapFind h.page_map (ptr / pageBytes)

/-- `MyAllocator::PageHeap::allocateSpan` (lines 53-78).
`os = none` models `mmap` returning `MAP_FAILED`; `os = some start` models a
fresh anonymous mapping beginning at page id `start`.  On `mmap` failure, or
when `allocate_span_memory` (lines 22-30) finds the descriptor pool
exhausted, the heap is returned unchanged and the result is `none` (in the
latter case the code `munmap`s the fresh region again, so no index entry
survives). -/
def PageHeap.allocateSpan (h : PageHeap) (os : Option Nat) (num_pages : Nat) :
    Option Span × PageHeap :=
  match os with
  | none => (none, h)
  | some start =>
      if h.span_offset + sizeofSpan > spanMemorySize then (none, h)
      else
        let sp : Span := ⟨start, num_pages⟩
        (some sp, ⟨insertRange h.page_map start sp num_pages, h.span_offset + sizeofSpan⟩)

/-- `MyAllocator::PageHeap::deallocateSpan` (lines 80-87): unmap the pages
and remove every page-id entry of the span; descriptor storage is not
reclaimed, so `span_offset` is unchanged. -/
def PageHeap.deallocateSpan (h : PageHeap) (sp : Span) : PageHeap :=
  ⟨eraseRange h.page_map sp.start_page_id sp.num_pages, h.span_offset⟩

/-- `MyAllocator::TransferCache` (allocator.h lines 42-46): central free
list and its `int` count (the mutex is irrelevant to the sequential
semantics). -/
structure TransferCache where
  list : List Nat
  count : Int
  deriving DecidableEq, Repr

instance : Inhabited TransferCache := ⟨⟨[], 0⟩⟩

/-- `MyAllocator::ThreadCache` (allocator.h lines 34-37): 8 free lists and
8 `int` lengths. -/
structure ThreadCache where
  free_lists : List (List Nat)
  list_lengths : List Int
  deriving DecidableEq, Repr

/-- The whole mutable state touched by the allocator: the page heap, the 8
transfer caches, the (single) thread's cache, and the written block
headers. -/
structure AllocState where
  page_heap : PageHeap
  transfer_caches : List TransferCache
  my_cache : ThreadCache
  mem : List (Nat × Nat)
  deriving DecidableEq, Repr

/-- Writing `header->size = v` at header address `a`. -/
def memWrite (m : List (Nat × Nat)) (a v : Nat) : List (Nat × Nat) :=
  (a, v) :: m.filter (fun e => e.1 != a)

/-- Reading `header->size` at header address `a` (default 0 models an
unwritten header; never read on the verified paths). -/
def memRead (m : List (Nat × Nat)) (a : Nat) : Nat :=
  ((m.find? (fun e => e.1 == a)).map Prod.snd).getD 0

/-- The state of a freshly constructed allocator: empty page map, fresh
descriptor pool, empty transfer caches, empty thread cache, no headers. -/
def initState : AllocState :=
  { page_heap := ⟨[], 0⟩
    transfer_caches := List.replicate 8 ⟨[], 0⟩
    my_cache := ⟨List.replicate 8 [], List.replicate 8 0⟩
    mem := [] }

/-- `MyAllocator::getSizeClassIndex` (lines 33-38): the first index whose
class size is ≥ the request, else 8. `List.findIdx` returns the length (8)
when no entry matches, exactly like the fallthrough `return 8`. -/
def getSizeClassIndex (size : Nat) : Nat :=
  SIZE_CLASSES.findIdx (fun c => size ≤ c)

/-- `MyAllocator::getClassSizeFromIndex` (lines 40-43). -/
def getClassSizeFromIndex (index : Nat) : Nat :=
  if index ≥ 8 then 0 else SIZE_CLASSES.getD index 0

/-- The block-carving loop of `fetchFromTransferCache` (lines 110-115):
`for (i = 0; i < n; ++i)` pushes the block at `start + i * bsz` onto the
front of the list, so after the loop the blocks sit in front of `acc` in
reverse carving order. -/
def carve (start bsz : Nat) : Nat → List Nat → List Nat
  | 0, acc => acc
  | n + 1, acc => (start + n * bsz) :: carve start bsz n acc

/-- One past the index at which a tail-finding loop of the shape
`T* tail = head; int i = 1; while (i < bound && tail && tail->next) { tail = tail->next; ++i; }`
stops, for a non-empty list of length `listLen`: the loop advances while the
counter is below `bound` and a next node exists, so the tail ends at index
`min (listLen - 1) (max (bound - 1) 0)`. -/
def tailStop (listLen : Nat) (bound : Int) : Nat :=
  min listLen (max bound.toNat 1)

namespace MyAllocator

/-- `MyAllocator::fetchFromTransferCache` (lines 90-137).  If the central
count is zero, carve one fresh page from the page heap into
`4096 / (classBytes + header)` blocks (minimum 1) and push them all onto
the central list; on page-heap failure return with nothing changed
(`allocateSpan` leaves the heap untouched when it fails).  Then move
`min(count, 32)` blocks from the front of the central list into the thread
cache: the traversal stops at the tail node `tailStop`, the thread list is
*overwritten* with the detached prefix and its length set (not added). -/
def fetchFromTransferCache (s : AllocState) (os : Option Nat) (class_index : Nat) :
    AllocState :=
  if class_index ≥ 8 then s
  else
    let tc0 := s.transfer_caches.getD class_index default
    let refill : Option (TransferCache × PageHeap) :=
      if tc0.count = 0 then
        let block_size := getClassSizeFromIndex class_index
        if block_size = 0 then none
        else
          let actual_block_size := block_size + sizeofBlockHeader
          let n0 := pageBytes / actual_block_size
          let num_blocks := if n0 = 0 then 1 else n0
          match s.page_heap.allocateSpan os 1 with
          | (none, _) => none
          | (some sp, h) =>
              some (⟨carve (sp.start_page_id * pageBytes) actual_block_size num_blocks tc0.list,
                     tc0.count + (num_blocks : Int)⟩, h)
      else some (tc0, s.page_heap)
    match refill with
    | none => s
    | some (tc, heap) =>
        let btt : Int := min tc.count 32
        match tc.list with
        | [] =>
            { s with page_heap := heap,
                     transfer_caches := s.transfer_caches.set class_index tc }
        | _ =>
            let k := tailStop tc.list.length btt
            { s with
              page_heap := heap
              transfer_caches := s.transfer_caches.set class_index
                ⟨tc.list.drop k, tc.count - btt⟩
              my_cache :=
                ⟨s.my_cache.free_lists.set class_index (tc.list.take k),
                 s.my_cache.list_lengths.set class_index btt⟩ }

/-- `MyAllocator::releaseToTransferCache` (lines 139-164).  Walks to the
tail of the thread list (bounded by `list_lengths`), links the traversed
prefix in front of the central list (when the head is null the central
list is overwritten with null), adds the *entire* recorded length to the
central count, and clears the thread cache entry. -/
def releaseToTransferCache (s : AllocState) (class_index : Nat) : AllocState :=
  if class_index ≥ 8 ∨ s.my_cache.list_lengths.getD class_index 0 = 0 then s
  else
    let tc := s.transfer_caches.getD class_index default
    let head := s.my_cache.free_lists.getD class_index []
    let len := s.my_cache.list_lengths.getD class_index 0
    let newList : List Nat :=
      match head with
      | [] => []
      | _ => head.take (tailStop head.length len) ++ tc.list
    { s with
      transfer_caches := s.transfer_caches.set class_index ⟨newList, tc.count + len⟩
      my_cache :=
        ⟨s.my_cache.free_lists.set class_index [],
         s.my_cache.list_lengths.set class_index 0⟩ }

/-- `MyAllocator::allocate` (lines 166-197). -/
def allocate (s : AllocState) (os : Option Nat) (size : Nat) :
    Option Nat × AllocState :=
  if size = 0 then (none, s)
  else if size > MAX_SMALL_ALLOC_SIZE then
    let total_size := size + sizeofBlockHeader
    let num_pages := (total_size + 4095) / pageBytes
    match s.page_heap.allocateSpan os num_pages with
    | (none, h) => (none, { s with page_heap := h })
    | (some sp, h) =>
        let header_addr := sp.start_page_id * pageBytes
        (some (header_addr + sizeofBlockHeader),
         { s with page_heap := h, mem := memWrite s.mem header_addr size })
  else
    let index := getSizeClassIndex size
    if index ≥ 8 then (none, s)
    else
      let s1 := if s.my_cache.free_lists.getD index [] = [] then
                  fetchFromTransferCache s os index
                else s
      match s1.my_cache.free_lists.getD index [] with
      | [] => (none, s1)
      | block :: rest =>
          (some (block + sizeofBlockHeader),
           { s1 with
             my_cache :=
               ⟨s1.my_cache.free_lists.set index rest,
                s1.my_cache.list_lengths.set index
                  (s1.my_cache.list_lengths.getD index 0 - 1)⟩
             mem := memWrite s1.mem block (getClassSizeFromIndex index) })

/-- `MyAllocator::deallocate` (lines 199-225). -/
def deallocate (s : AllocState) (ptr : Option Nat) : AllocState :=
  match ptr with
  | none => s
  | some p =>
      let header_addr := p - sizeofBlockHeader
      let size := memRead s.mem header_addr
      if size > MAX_SMALL_ALLOC_SIZE then
        match s.page_heap.lookupSpan header_addr with
        | none => s
        | some sp => { s with page_heap := s.page_heap.deallocateSpan sp }
      else
        let index := getSizeClassIndex size
        if index ≥ 8 then s
        else
          let s1 :=
            { s with
              my_cache :=
                ⟨s.my_cache.free_lists.set index
                   (header_addr :: s.my_cache.free_lists.getD index []),
                 s.my_cache.list_lengths.set index
                   (s.my_cache.list_lengths.getD index 0 + 1)⟩ }
          if s1.my_cache.list_lengths.getD index 0 > SCAVENGE_THRESHOLD then
            releaseToTransferCache s1 index
          else s1

/-- A sequence of `deallocate` calls on the given pointers, in order. -/
def deallocSeq (s : AllocState) (ps : List Nat) : AllocState :=
  ps.foldl (fun s p => deallocate s (some p)) s

end MyAllocator

/-! ### Generic list-map helper lemmas -/

theorem getD_set_self {α : Type} (l : List α) (i : Nat) (a d : α) (h : i < l.length) :
    (l.set i a).getD i d = a := by
  simp [List.getD_eq_getElem?_getD, List.getElem?_set_eq_of_lt a h]

theorem getD_set_ne {α : Type} (l : List α) (i j : Nat) (a d : α) (h : i ≠ j) :
    (l.set i a).getD j d = l.getD j d := by
  simp [List.getD_eq_getElem?_getD, List.getElem?_set_ne h]

theorem set_getD_self {α : Type} (l : List α) (i : Nat) (d : α) (h : i < l.length) :
    l.set i (l.getD i d) = l := by
  apply List.ext_getElem?
  intro n
  by_cases hn : i = n
  · subst hn
    rw [List.getElem?_set_eq_of_lt _ h, List.getD_eq_getElem?_getD,
      List.getElem?_eq_getElem h]
    rfl
  · rw [List.getElem?_set_ne hn]

theorem memRead_memWrite_self (m : List (Nat × Nat)) (a v : Nat) :
    memRead (memWrite m a v) a = v := by
  simp [memRead, memWrite]

/-! ### Size-class table facts -/

/-- Closed form of the classification loop. -/
theorem getSizeClassIndex_eq (s : Nat) :
    getSizeClassIndex s =
      if s ≤ 8 then 0 else if s ≤ 16 then 1 else if s ≤ 32 then 2
      else if s ≤ 64 then 3 else if s ≤ 128 then 4 else if s ≤ 256 then 5
      else if s ≤ 512 then 6 else if s ≤ 1024 then 7 else 8 := by
  simp only [getSizeClassIndex, SIZE_CLASSES, List.findIdx_cons, List.findIdx_nil]
  by_cases h1 : s ≤ 8 <;> by_cases h2 : s ≤ 16 <;> by_cases h3 : s ≤ 32 <;>
    by_cases h4 : s ≤ 64 <;> by_cases h5 : s ≤ 128 <;> by_cases h6 : s ≤ 256 <;>
    by_cases h7 : s ≤ 512 <;> by_cases h8 : s ≤ 1024 <;>
    simp [h1, h2, h3, h4, h5, h6, h7, h8]

theorem classify_lt_eight {s : Nat} (h : s ≤ 1024) : getSizeClassIndex s < 8 := by
  rw [getSizeClassIndex_eq]
  split_ifs <;> omega

theorem classBytes_pos {c : Nat} (h : c < 8) : 0 < getClassSizeFromIndex c := by
  have key : ∀ c' < 8, 0 < getClassSizeFromIndex c' := by decide
  exact key c h

theorem classBytes_le_1024 {c : Nat} (h : c < 8) : getClassSizeFromIndex c ≤ 1024 := by
  have key : ∀ c' < 8, getClassSizeFromIndex c' ≤ 1024 := by decide
  exact key c h

theorem classify_classBytes {c : Nat} (h : c < 8) :
    getSizeClassIndex (getClassSizeFromIndex c) = c := by
  have key : ∀ c' < 8, getSizeClassIndex (getClassSizeFromIndex c') = c' := by decide
  exact key c h

/-! ### Claim C3 -/

set_option maxRecDepth 8192 in
set_option maxHeartbeats 1600000 in
/-- C3: for every size `s` with `0 < s ≤ 1024`, `getSizeClassIndex s` is the
smallest configured class index whose byte value `getClassSizeFromIndex` is
≥ `s`; classification is monotone non-decreasing in `s`; and every
`s > 1024` classifies to the LARGE sentinel 8. -/
theorem C3_classify_least_monotone :
    (∀ s : Nat, 0 < s → s ≤ 1024 →
      getSizeClassIndex s < 8 ∧
      s ≤ getClassSizeFromIndex (getSizeClassIndex s) ∧
      ∀ j < getSizeClassIndex s, getClassSizeFromIndex j < s) ∧
    (∀ s t : Nat, s ≤ t → getSizeClassIndex s ≤ getSizeClassIndex t) ∧
    (∀ s : Nat, 1024 < s → getSizeClassIndex s = 8) := by
  refine ⟨?_, ?_, ?_⟩
  · have key : ∀ s < 1025, 0 < s →
        getSizeClassIndex s < 8 ∧
        s ≤ getClassSizeFromIndex (getSizeClassIndex s) ∧
        ∀ j < getSizeClassIndex s, getClassSizeFromIndex j < s := by decide
    intro s hs h1024
    exact key s (by omega) hs
  · intro s t hst
    rw [getSizeClassIndex_eq, getSizeClassIndex_eq]
    split_ifs <;> omega
  · intro s hs
    rw [getSizeClassIndex_eq]
    split_ifs <;> omega

/-- Witness for C3 at `s = 9`: class 1 (16 bytes) is the least class. -/
theorem C3_classify_least_monotone_witness :
    (0 < 9 ∧ 9 ≤ 1024) ∧
    (getSizeClassIndex 9 < 8 ∧
     9 ≤ getClassSizeFromIndex (getSizeClassIndex 9) ∧
     ∀ j < getSizeClassIndex 9, getClassSizeFromIndex j < 9) :=
  ⟨by decide, C3_classify_least_monotone.1 9 (by decide) (by decide)⟩

/-! ### Claim C9 -/

/-- C9: `allocate(0)` returns null leaving the state untouched, and
`deallocate(nullptr)` is a no-op: no header is read or written and every
cache and the page index are unchanged. -/
theorem C9_zero_alloc_null_dealloc (s : AllocState) (os : Option Nat) :
    MyAllocator.allocate s os 0 = (none, s) ∧ MyAllocator.deallocate s none = s :=
  ⟨rfl, rfl⟩

/-! ### Claim C10 -/

/-- C10: `deallocate` on a non-null pointer whose header stores a
LARGE-range size but whose page is absent from the ownership index returns
with the whole allocator state unchanged. -/
theorem C10_large_dealloc_unknown_page (s : AllocState) (p : Nat)
    (hsize : MAX_SMALL_ALLOC_SIZE < memRead s.mem (p - sizeofBlockHeader))
    (hlook : s.page_heap.lookupSpan (p - sizeofBlockHeader) = none) :
    MyAllocator.deallocate s (some p) = s := by
  simp only [MyAllocator.deallocate]
  rw [if_pos hsize, hlook]

/-- Witness for C10: header at address 92 stores 2000, page map empty. -/
theorem C10_large_dealloc_unknown_page_witness :
    (MAX_SMALL_ALLOC_SIZE <
       memRead [(92, 2000)] (100 - sizeofBlockHeader) ∧
     ({ initState with mem := [(92, 2000)] } : AllocState).page_heap.lookupSpan
       (100 - sizeofBlockHeader) = none) ∧
    MyAllocator.deallocate { initState with mem := [(92, 2000)] } (some 100) =
      { initState with mem := [(92, 2000)] } :=
  ⟨⟨by decide, by decide⟩,
   C10_large_dealloc_unknown_page { initState with mem := [(92, 2000)] } 100
     (by decide) (by decide)⟩

/-! ### Page-heap span helper lemmas -/

theorem allocateSpan_some (h : PageHeap) (start n : Nat)
    (hp : h.span_offset + sizeofSpan ≤ spanMemorySize) :
    h.allocateSpan (some start) n =
      (some ⟨start, n⟩,
       ⟨insertRange h.page_map start ⟨start, n⟩ n, h.span_offset + sizeofSpan⟩) := by
  simp only [PageHeap.allocateSpan]
  rw [if_neg (by omega)]

theorem allocateSpan_fail (h : PageHeap) (os : Option Nat) (n : Nat)
    (hfail : os = none ∨ spanMemorySize < h.span_offset + sizeofSpan) :
    h.allocateSpan os n = (none, h) := by
  rcases hfail with rfl | hex
  · rfl
  · cases os with
    | none => rfl
    | some start =>
        simp only [PageHeap.allocateSpan]
        rw [if_pos (by omega)]

/-- A page-heap failure inside a refill leaves the whole state unchanged
(the early `return` at allocator.cpp line 106). -/
theorem fetch_page_heap_failure (s : AllocState) (os : Option Nat) (c : Nat)
    (hc : c < 8)
    (hcount : (s.transfer_caches.getD c default).count = 0)
    (hfail : os = none ∨ spanMemorySize < s.page_heap.span_offset + sizeofSpan) :
    MyAllocator.fetchFromTransferCache s os c = s := by
  have hbs : getClassSizeFromIndex c ≠ 0 := by
    have := classBytes_pos hc; omega
  have hfa := allocateSpan_fail s.page_heap os 1 hfail
  simp only [MyAllocator.fetchFromTransferCache]
  rw [if_neg (by omega)]
  simp only [List.getD_eq_getElem?_getD] at hcount
  simp [hcount, hbs, hfa]

/-! ### Claim C6 -/

/-- C6: whenever an `allocate` actually reaches the page heap (the large
path, or the small path with an empty thread list and an empty transfer
count) and the OS mapping fails or the span-descriptor pool is exhausted,
`allocate` returns null and the state — in particular the requesting
thread's free list for that class — is unchanged. -/
theorem C6_exhaustion_returns_null (s : AllocState) (os : Option Nat) (size : Nat)
    (hfail : os = none ∨ spanMemorySize < s.page_heap.span_offset + sizeofSpan)
    (hpath : MAX_SMALL_ALLOC_SIZE < size ∨
      (s.my_cache.free_lists.getD (getSizeClassIndex size) [] = [] ∧
       (s.transfer_caches.getD (getSizeClassIndex size) default).count = 0)) :
    MyAllocator.allocate s os size = (none, s) := by
  by_cases h0 : size = 0
  · subst h0; rfl
  · by_cases hlg : MAX_SMALL_ALLOC_SIZE < size
    · simp only [MyAllocator.allocate]
      rw [if_neg h0, if_pos hlg, allocateSpan_fail _ _ _ hfail]
    · rcases hpath with hlarge | ⟨hempty, hcount⟩
      · exact absurd hlarge hlg
      · have hle : size ≤ 1024 := by
          unfold MAX_SMALL_ALLOC_SIZE at hlg; omega
        have hc8 : getSizeClassIndex size < 8 := classify_lt_eight hle
        have hfetch := fetch_page_heap_failure s os (getSizeClassIndex size) hc8 hcount hfail
        simp only [MyAllocator.allocate]
        rw [if_neg h0, if_neg hlg]
        rw [if_neg (by omega)]
        simp only [List.getD_eq_getElem?_getD] at hempty
        simp [hempty, hfetch]

/-- Witness for C6: fresh allocator, failing OS call, size 5. -/
theorem C6_exhaustion_returns_null_witness :
    ((none : Option Nat) = none ∨
       spanMemorySize < initState.page_heap.span_offset + sizeofSpan) ∧
    MyAllocator.allocate initState none 5 = (none, initState) :=
  ⟨Or.inl rfl,
   C6_exhaustion_returns_null initState none 5 (Or.inl rfl)
     (Or.inr ⟨by decide, by decide⟩)⟩

/-! ### Claim C4 -/

/-- C4: `allocate(1024)` takes the small path (serves from the thread
cache, page heap untouched) while sizes above 1024 take the large path:
total bytes = size + header size rounded up to whole pages, a span of that
many pages recorded in the page map, the exact requested size written into
the header, the returned pointer just past the header; a page-heap failure
yields null.  The classification boundary itself: 1024 ↦ class 7,
1025 ↦ LARGE. -/
theorem C4_large_path_and_boundary :
    (∀ (s : AllocState) (start size : Nat), MAX_SMALL_ALLOC_SIZE < size →
       s.page_heap.span_offset + sizeofSpan ≤ spanMemorySize →
       MyAllocator.allocate s (some start) size =
         (some (start * pageBytes + sizeofBlockHeader),
          { s with
            page_heap :=
              ⟨insertRange s.page_heap.page_map start
                 ⟨start, (size + sizeofBlockHeader + 4095) / pageBytes⟩
                 ((size + sizeofBlockHeader + 4095) / pageBytes),
               s.page_heap.span_offset + sizeofSpan⟩
            mem := memWrite s.mem (start * pageBytes) size }) ∧
       memRead (memWrite s.mem (start * pageBytes) size) (start * pageBytes) = size) ∧
    (∀ (s : AllocState) (size : Nat), MAX_SMALL_ALLOC_SIZE < size →
       MyAllocator.allocate s none size = (none, s)) ∧
    (∀ (s : AllocState) (os : Option Nat) (b : Nat) (rest : List Nat),
       s.my_cache.free_lists.getD 7 [] = b :: rest →
       (MyAllocator.allocate s os 1024).1 = some (b + sizeofBlockHeader) ∧
       (MyAllocator.allocate s os 1024).2.page_heap = s.page_heap) ∧
    getSizeClassIndex 1024 = 7 ∧ getSizeClassIndex 1025 = 8 := by
  refine ⟨?_, ?_, ?_, by decide, by decide⟩
  · intro s start size hlg hpool
    have h0 : size ≠ 0 := by
      unfold MAX_SMALL_ALLOC_SIZE at hlg; omega
    constructor
    · simp only [MyAllocator.allocate]
      rw [if_neg h0, if_pos hlg,
        allocateSpan_some s.page_heap start ((size + sizeofBlockHeader + 4095) / pageBytes) hpool]
    · exact memRead_memWrite_self s.mem (start * pageBytes) size
  · intro s size hlg
    have h0 : size ≠ 0 := by
      unfold MAX_SMALL_ALLOC_SIZE at hlg; omega
    simp only [MyAllocator.allocate]
    rw [if_neg h0, if_pos hlg, allocateSpan_fail _ _ _ (Or.inl rfl)]
  · intro s os b rest hb
    have hidx : getSizeClassIndex 1024 = 7 := by decide
    simp only [MyAllocator.allocate]
    rw [if_neg (by decide), if_neg (by decide)]
    rw [hidx, if_neg (by decide)]
    simp only [List.getD_eq_getElem?_getD] at hb
    simp [hb]

/-- Witness for C4 at 1025 from a fresh allocator with the OS granting
page 3: one two-…page computation instantiated concretely. -/
theorem C4_large_path_and_boundary_witness :
    (MAX_SMALL_ALLOC_SIZE < 1025 ∧
     initState.page_heap.span_offset + sizeofSpan ≤ spanMemorySize) ∧
    (MyAllocator.allocate initState (some 3) 1025 =
       (some (3 * pageBytes + sizeofBlockHeader),
        { initState with
          page_heap :=
            ⟨insertRange initState.page_heap.page_map 3
               ⟨3, (1025 + sizeofBlockHeader + 4095) / pageBytes⟩
               ((1025 + sizeofBlockHeader + 4095) / pageBytes),
             initState.page_heap.span_offset + sizeofSpan⟩
          mem := memWrite initState.mem (3 * pageBytes) 1025 }) ∧
     memRead (memWrite initState.mem (3 * pageBytes) 1025) (3 * pageBytes) = 1025) :=
  ⟨⟨by decide, by decide⟩,
   C4_large_path_and_boundary.1 initState 3 1025 (by decide) (by decide)⟩

/-! ### Claim C5 -/

/-- C5: allocating 2000 bytes from a fresh allocator stores 2000 in the
header immediately preceding the returned pointer, and after deallocating
that pointer `lookupSpan` reports not-found for every address inside every
page the span covered (here the single page `k`). -/
theorem C5_large_round_trip (k : Nat) :
    (MyAllocator.allocate initState (some k) 2000).1 =
      some (k * pageBytes + sizeofBlockHeader) ∧
    memRead (MyAllocator.allocate initState (some k) 2000).2.mem (k * pageBytes) = 2000 ∧
    ∀ a : Nat, a / pageBytes = k →
      ((MyAllocator.deallocate (MyAllocator.allocate initState (some k) 2000).2
          (MyAllocator.allocate initState (some k) 2000).1).page_heap.lookupSpan a
        = none) := by
  have halloc : MyAllocator.allocate initState (some k) 2000 =
      (some (k * pageBytes + sizeofBlockHeader),
       { initState with
         page_heap := ⟨[(k, ⟨k, 1⟩)], sizeofSpan⟩
         mem := [(k * pageBytes, 2000)] }) := by
    simp only [MyAllocator.allocate]
    rw [if_neg (by decide), if_pos (by decide),
      allocateSpan_some _ k _ (by decide)]
    norm_num [insertRange, mapInsert, initState, memWrite, sizeofBlockHeader, pageBytes]
  refine ⟨by rw [halloc], by rw [halloc]; simp [memRead], ?_⟩
  intro a ha
  rw [halloc]
  have hdiv : k * pageBytes / pageBytes = k :=
    Nat.mul_div_cancel k (by norm_num [pageBytes])
  have hsub : k * pageBytes + sizeofBlockHeader - sizeofBlockHeader = k * pageBytes := by
    omega
  simp only [MyAllocator.deallocate, hsub]
  rw [show memRead [(k * pageBytes, 2000)] (k * pageBytes) = 2000 from
    memRead_memWrite_self [] _ _]
  rw [if_pos (by decide)]
  have hlook : PageHeap.lookupSpan ⟨[(k, ⟨k, 1⟩)], sizeofSpan⟩ (k * pageBytes) =
      some ⟨k, 1⟩ := by
    simp [PageHeap.lookupSpan, mapFind, hdiv]
  rw [hlook]
  simp [PageHeap.deallocateSpan, PageHeap.lookupSpan, eraseRange, mapErase, mapFind]

/-- Witness for C5 at `k = 3`, probing address 12800 inside page 3. -/
theorem C5_large_round_trip_witness :
    ((12800 : Nat) / pageBytes = 3) ∧
    (MyAllocator.deallocate (MyAllocator.allocate initState (some 3) 2000).2
        (MyAllocator.allocate initState (some 3) 2000).1).page_heap.lookupSpan 12800
      = none :=
  ⟨by decide, (C5_large_round_trip 3).2.2 12800 (by decide)⟩

/-! ### Small-deallocation step lemmas (for claim C1) -/

/-- A small-path `deallocate` that stays at or below the scavenge threshold
just pushes the block and bumps the length. -/
theorem dealloc_small_step (s : AllocState) (c p : Nat) (hc : c < 8)
    (hll8 : s.my_cache.list_lengths.length = 8)
    (hhdr : memRead s.mem (p - sizeofBlockHeader) = getClassSizeFromIndex c)
    (hbound : s.my_cache.list_lengths.getD c 0 + 1 ≤ SCAVENGE_THRESHOLD) :
    MyAllocator.deallocate s (some p) =
      { s with my_cache :=
          ⟨s.my_cache.free_lists.set c
             ((p - sizeofBlockHeader) :: s.my_cache.free_lists.getD c []),
           s.my_cache.list_lengths.set c (s.my_cache.list_lengths.getD c 0 + 1)⟩ } := by
  have hmax : MAX_SMALL_ALLOC_SIZE = 1024 := rfl
  have hsc : SCAVENGE_THRESHOLD = 128 := rfl
  have hle : getClassSizeFromIndex c ≤ 1024 := classBytes_le_1024 hc
  have hcls : getSizeClassIndex (getClassSizeFromIndex c) = c := classify_classBytes hc
  have hgetset :
      (s.my_cache.list_lengths.set c (s.my_cache.list_lengths.getD c 0 + 1)).getD c 0 =
        s.my_cache.list_lengths.getD c 0 + 1 :=
    getD_set_self _ c _ 0 (by omega)
  simp only [MyAllocator.deallocate, hhdr]
  rw [if_neg (by omega), hcls, if_neg (by omega), hgetset, if_neg (by omega)]

/-- Deallocating a batch that never crosses the scavenge threshold only
accumulates blocks in the thread cache; nothing else changes. -/
theorem deallocSeq_below_threshold (ps : List Nat) (s : AllocState) (c : Nat) (hc : c < 8)
    (hfl8 : s.my_cache.free_lists.length = 8)
    (hll8 : s.my_cache.list_lengths.length = 8)
    (hhdr : ∀ p ∈ ps, memRead s.mem (p - sizeofBlockHeader) = getClassSizeFromIndex c)
    (hbound : s.my_cache.list_lengths.getD c 0 + (ps.length : Int) ≤ SCAVENGE_THRESHOLD) :
    MyAllocator.deallocSeq s ps =
      { s with my_cache :=
          ⟨s.my_cache.free_lists.set c
             ((ps.reverse.map (fun p => p - sizeofBlockHeader)) ++
               s.my_cache.free_lists.getD c []),
           s.my_cache.list_lengths.set c
             (s.my_cache.list_lengths.getD c 0 + (ps.length : Int))⟩ } := by
  induction ps generalizing s with
  | nil =>
      simp only [MyAllocator.deallocSeq, List.foldl_nil, List.reverse_nil, List.map_nil,
        List.nil_append, List.length_nil, Nat.cast_zero, add_zero]
      rw [set_getD_self _ c [] (by omega), set_getD_self _ c 0 (by omega)]
  | cons p ps ih =>
      have hstep := dealloc_small_step s c p hc hll8 (hhdr p (by simp))
        (by simp at hbound ⊢; omega)
      have hlen1 :
          ((s.my_cache.list_lengths.set c (s.my_cache.list_lengths.getD c 0 + 1)).getD c 0) =
            s.my_cache.list_lengths.getD c 0 + 1 :=
        getD_set_self _ c _ 0 (by omega)
      have hfl1 :
          ((s.my_cache.free_lists.set c
             ((p - sizeofBlockHeader) :: s.my_cache.free_lists.getD c [])).getD c []) =
            (p - sizeofBlockHeader) :: s.my_cache.free_lists.getD c [] :=
        getD_set_self _ c _ [] (by omega)
      have hsc : SCAVENGE_THRESHOLD = 128 := rfl
      have hresult := ih
        { s with my_cache :=
            ⟨s.my_cache.free_lists.set c
               ((p - sizeofBlockHeader) :: s.my_cache.free_lists.getD c []),
             s.my_cache.list_lengths.set c (s.my_cache.list_lengths.getD c 0 + 1)⟩ }
        (by simpa using hfl8) (by simpa using hll8)
        (fun q hq => hhdr q (by simp [hq]))
        (by
          show (s.my_cache.list_lengths.set c
              (s.my_cache.list_lengths.getD c 0 + 1)).getD c 0 + (ps.length : Int) ≤ _
          rw [hlen1]
          simp only [List.length_cons, Nat.cast_add, Nat.cast_one] at hbound
          omega)
      simp only [MyAllocator.deallocSeq, List.foldl_cons] at *
      rw [hstep, hresult]
      simp only [hlen1, hfl1, List.set_set]
      congr 2
      · simp [List.append_assoc]
      · congr 1
        simp only [List.length_cons, Nat.cast_add, Nat.cast_one]
        ring

/-- The deallocation that pushes the thread list past the scavenge
threshold hands the *entire* thread list (129 blocks) to the transfer
cache and clears the thread cache entry. -/
theorem dealloc_small_release (s : AllocState) (c p : Nat) (hc : c < 8)
    (hfl8 : s.my_cache.free_lists.length = 8)
    (hll8 : s.my_cache.list_lengths.length = 8)
    (hhdr : memRead s.mem (p - sizeofBlockHeader) = getClassSizeFromIndex c)
    (hlen : s.my_cache.list_lengths.getD c 0 = 128)
    (hlistlen : (s.my_cache.free_lists.getD c []).length = 128) :
    MyAllocator.deallocate s (some p) =
      { s with
        transfer_caches := s.transfer_caches.set c
          ⟨((p - sizeofBlockHeader) :: s.my_cache.free_lists.getD c []) ++
             (s.transfer_caches.getD c default).list,
           (s.transfer_caches.getD c default).count + 129⟩
        my_cache :=
          ⟨s.my_cache.free_lists.set c [],
           s.my_cache.list_lengths.set c 0⟩ } := by
  have hmax : MAX_SMALL_ALLOC_SIZE = 1024 := rfl
  have hsc : SCAVENGE_THRESHOLD = 128 := rfl
  have hle : getClassSizeFromIndex c ≤ 1024 := classBytes_le_1024 hc
  have hcls : getSizeClassIndex (getClassSizeFromIndex c) = c := classify_classBytes hc
  have hlen1 :
      (s.my_cache.list_lengths.set c (s.my_cache.list_lengths.getD c 0 + 1)).getD c 0 =
        s.my_cache.list_lengths.getD c 0 + 1 :=
    getD_set_self _ c _ 0 (by omega)
  have hfl1 :
      (s.my_cache.free_lists.set c
         ((p - sizeofBlockHeader) :: s.my_cache.free_lists.getD c [])).getD c [] =
        (p - sizeofBlockHeader) :: s.my_cache.free_lists.getD c [] :=
    getD_set_self _ c _ [] (by omega)
  have hts : tailStop (128 + 1) ((128 : Int) + 1) = 129 := by decide
  simp only [MyAllocator.deallocate, hhdr]
  rw [if_neg (by omega), hcls, if_neg (by omega), hlen1, if_pos (by omega)]
  simp only [MyAllocator.releaseToTransferCache, hlen1, hfl1, hlen, List.set_set]
  rw [if_neg (by
    simp only [not_or]
    exact ⟨by omega, by rw [getD_set_self _ c _ 0 (by omega)]; norm_num⟩)]
  have hts2 : tailStop 129 (129 : Int) = 129 := by decide
  have hlen3 : (s.my_cache.list_lengths.set c ((128 : Int) + 1)).getD c 0 = 129 := by
    rw [getD_set_self _ c _ 0 (by omega)]; norm_num
  have h129 : (128 : Nat) + 1 = 129 := by norm_num
  rw [hlen3, List.length_cons, hlistlen, h129, hts2,
    List.take_of_length_le (by rw [List.length_cons, hlistlen]), List.cons_append]

/-! ### Claim C1 (corrected) -/

/-- The concrete C1 scenario: 129 blocks of class 0 (8 bytes, headers
written), thread cache and transfer caches empty. -/
def c1state : AllocState :=
  { initState with mem := (List.range 129).map (fun i => (16 * i, 8)) }

/-- The 129 pointers handed to `deallocate`, one per block. -/
def c1ptrs : List Nat := (List.range 129).map (fun i => 16 * i + 8)

set_option maxRecDepth 10000 in
/-- Counterexample to C1 as stated: after 129 sequential deallocations of
class-0 blocks from an empty thread cache, the thread cache length is not
97 and the transfer-cache count has not grown by 32 (it is 0 and 129). -/
theorem C1_counterexample_scavenge :
    ¬ ((MyAllocator.deallocSeq c1state c1ptrs).my_cache.list_lengths.getD 0 0 = 97 ∧
       ((MyAllocator.deallocSeq c1state c1ptrs).transfer_caches.getD 0 default).count =
         (c1state.transfer_caches.getD 0 default).count + 32) := by
  decide

/-- C1 amended: the scavenge release at the 129th deallocation moves the
*whole* thread list, leaving the thread cache at 0 (not 97) and raising
the transfer-cache count by 129 (not 32). -/
theorem C1_amended_scavenge_releases_all (s : AllocState) (c : Nat) (ps : List Nat)
    (hc : c < 8)
    (htc8 : s.transfer_caches.length = 8)
    (hfl8 : s.my_cache.free_lists.length = 8)
    (hll8 : s.my_cache.list_lengths.length = 8)
    (hempty : s.my_cache.free_lists.getD c [] = [])
    (hzero : s.my_cache.list_lengths.getD c 0 = 0)
    (hlen : ps.length = 129)
    (hhdr : ∀ p ∈ ps, memRead s.mem (p - sizeofBlockHeader) = getClassSizeFromIndex c) :
    (MyAllocator.deallocSeq s ps).my_cache.list_lengths.getD c 0 = 0 ∧
    (MyAllocator.deallocSeq s ps).my_cache.free_lists.getD c [] = [] ∧
    ((MyAllocator.deallocSeq s ps).transfer_caches.getD c default).count =
      (s.transfer_caches.getD c default).count + 129 := by
  obtain (rfl | ⟨qs, q, rfl⟩) := ps.eq_nil_or_concat
  · exact absurd hlen (by simp)
  · have hqs : qs.length = 128 := by simp at hlen; omega
    have hseq := deallocSeq_below_threshold qs s c hc hfl8 hll8
      (fun r hr => hhdr r (by simp [hr]))
      (by rw [hzero, hqs]; decide)
    rw [show MyAllocator.deallocSeq s (qs.concat q) =
          MyAllocator.deallocate (MyAllocator.deallocSeq s qs) (some q) from by
        simp [MyAllocator.deallocSeq]]
    rw [hseq]
    have hrel := dealloc_small_release
      { s with my_cache :=
          ⟨s.my_cache.free_lists.set c
             (List.map (fun p => p - sizeofBlockHeader) qs.reverse ++
               s.my_cache.free_lists.getD c []),
           s.my_cache.list_lengths.set c
             (s.my_cache.list_lengths.getD c 0 + (qs.length : Int))⟩ }
      c q hc
      (by show (s.my_cache.free_lists.set c _).length = 8
          simp only [List.length_set]; omega)
      (by show (s.my_cache.list_lengths.set c _).length = 8
          simp only [List.length_set]; omega)
      (hhdr q (by simp))
      (by show (s.my_cache.list_lengths.set c
            (s.my_cache.list_lengths.getD c 0 + (qs.length : Int))).getD c 0 = 128
          rw [getD_set_self _ c _ 0 (by omega), hzero, hqs]; decide)
      (by show ((s.my_cache.free_lists.set c
            (List.map (fun p => p - sizeofBlockHeader) qs.reverse ++
              s.my_cache.free_lists.getD c [])).getD c []).length = 128
          rw [getD_set_self _ c _ [] (by omega), hempty]; simp [hqs])
    rw [hrel]
    dsimp only
    refine ⟨?_, ?_, ?_⟩
    · rw [List.set_set]
      exact getD_set_self _ c _ 0 (by omega)
    · rw [List.set_set]
      exact getD_set_self _ c _ [] (by omega)
    · rw [getD_set_self _ c _ default (by omega)]

set_option maxRecDepth 10000 in
/-- Witness for the amended C1 on the concrete scenario. -/
theorem C1_amended_scavenge_releases_all_witness :
    ((0 : Nat) < 8 ∧ c1state.transfer_caches.length = 8 ∧ c1ptrs.length = 129) ∧
    ((MyAllocator.deallocSeq c1state c1ptrs).my_cache.list_lengths.getD 0 0 = 0 ∧
     (MyAllocator.deallocSeq c1state c1ptrs).my_cache.free_lists.getD 0 [] = [] ∧
     ((MyAllocator.deallocSeq c1state c1ptrs).transfer_caches.getD 0 default).count =
       (c1state.transfer_caches.getD 0 default).count + 129) :=
  ⟨⟨by decide, by decide, by decide⟩,
   C1_amended_scavenge_releases_all c1state 0 c1ptrs (by decide) (by decide)
     (by decide) (by decide) (by decide) (by decide) (by decide) (by decide)⟩

/-! ### Claim C2 -/

/-- `block_size + sizeof(BlockHeader)` for a class (allocator.cpp line 101). -/
def classBlockBytes (c : Nat) : Nat := getClassSizeFromIndex c + sizeofBlockHeader

/-- `4096 / actual_block_size`, minimum 1 (lines 102-103). -/
def classBlocksPerPage (c : Nat) : Nat :=
  if pageBytes / classBlockBytes c = 0 then 1 else pageBytes / classBlockBytes c

theorem carve_length (start bsz : Nat) (n : Nat) (acc : List Nat) :
    (carve start bsz n acc).length = n + acc.length := by
  induction n with
  | zero => simp [carve]
  | succ n ih => simp [carve, ih]; omega

/-- C2: a refill request for class `c` with an empty central list requests
exactly one one-page span from the page heap (one descriptor consumed, one
page recorded), carves it into `pageBytes / (classBytes c + header)` blocks
(minimum 1) all pushed onto the central list, then moves up to 32 blocks to
the requesting thread cache, decrementing the central count by the number
moved. -/
theorem C2_transfer_cache_refill (s : AllocState) (c start : Nat)
    (hc : c < 8)
    (htc8 : s.transfer_caches.length = 8)
    (hfl8 : s.my_cache.free_lists.length = 8)
    (hll8 : s.my_cache.list_lengths.length = 8)
    (hcount : (s.transfer_caches.getD c default).count = 0)
    (hlist : (s.transfer_caches.getD c default).list = [])
    (hpool : s.page_heap.span_offset + sizeofSpan ≤ spanMemorySize) :
    (MyAllocator.fetchFromTransferCache s (some start) c).page_heap =
      ⟨insertRange s.page_heap.page_map start ⟨start, 1⟩ 1,
       s.page_heap.span_offset + sizeofSpan⟩ ∧
    ((MyAllocator.fetchFromTransferCache s (some start) c).transfer_caches.getD c default).list =
      (carve (start * pageBytes) (classBlockBytes c) (classBlocksPerPage c) []).drop
        (min (classBlocksPerPage c) 32) ∧
    ((MyAllocator.fetchFromTransferCache s (some start) c).transfer_caches.getD c default).count =
      (classBlocksPerPage c : Int) - (min (classBlocksPerPage c) 32 : Nat) ∧
    (MyAllocator.fetchFromTransferCache s (some start) c).my_cache.free_lists.getD c [] =
      (carve (start * pageBytes) (classBlockBytes c) (classBlocksPerPage c) []).take
        (min (classBlocksPerPage c) 32) ∧
    (MyAllocator.fetchFromTransferCache s (some start) c).my_cache.list_lengths.getD c 0 =
      ((min (classBlocksPerPage c) 32 : Nat) : Int) := by
  have hbs : getClassSizeFromIndex c ≠ 0 := by have := classBytes_pos hc; omega
  have hn1 : 1 ≤ classBlocksPerPage c := by
    have key : ∀ c' < 8, 1 ≤ classBlocksPerPage c' := by decide
    exact key c hc
  have halloc := allocateSpan_some s.page_heap start 1 hpool
  simp only [MyAllocator.fetchFromTransferCache]
  rw [if_neg (by omega)]
  simp only [hcount, hlist, hbs, halloc, if_pos rfl, if_neg hbs, if_true, if_false]
  simp only [show (if pageBytes / (getClassSizeFromIndex c + sizeofBlockHeader) = 0 then 1
      else pageBytes / (getClassSizeFromIndex c + sizeofBlockHeader)) = classBlocksPerPage c
    from rfl]
  obtain ⟨m, hm⟩ : ∃ m, classBlocksPerPage c = m + 1 :=
    ⟨classBlocksPerPage c - 1, by omega⟩
  rw [hm]
  simp only [carve, zero_add]
  simp only [show getClassSizeFromIndex c + sizeofBlockHeader = classBlockBytes c from rfl]
  have hcl : ((start * pageBytes + m * classBlockBytes c) ::
      carve (start * pageBytes) (classBlockBytes c) m []).length = m + 1 := by
    simp [carve_length]
  rw [hcl]
  have hts : tailStop (m + 1) (min ((m + 1 : Nat) : Int) 32) = min (m + 1) 32 := by
    unfold tailStop
    omega
  rw [hts]
  refine ⟨trivial, ?_, ?_, ?_, ?_⟩
  · rw [getD_set_self _ c _ default (by omega)]
  · rw [getD_set_self _ c _ default (by omega)]
    push_cast
    ring
  · rw [getD_set_self _ c _ [] (by omega)]
  · rw [getD_set_self _ c _ 0 (by omega)]
    push_cast
    ring

/-- Witness for C2: class 0 refill from a fresh allocator, OS grants page 7;
256 blocks are carved, 32 are moved. -/
theorem C2_transfer_cache_refill_witness :
    ((0 : Nat) < 8 ∧ (initState.transfer_caches.getD 0 default).count = 0 ∧
     (initState.transfer_caches.getD 0 default).list = [] ∧
     initState.page_heap.span_offset + sizeofSpan ≤ spanMemorySize) ∧
    (MyAllocator.fetchFromTransferCache initState (some 7) 0).my_cache.list_lengths.getD 0 0 =
      ((min (classBlocksPerPage 0) 32 : Nat) : Int) :=
  ⟨⟨by decide, by decide, by decide, by decide⟩,
   (C2_transfer_cache_refill initState 0 7 (by decide) (by decide) (by decide)
      (by decide) (by decide) (by decide) (by decide)).2.2.2.2⟩

/-! ### Claim C7 -/

/-- The counting invariant of the caches: every transfer cache's `count`
equals the number of blocks reachable from its list head, every thread
cache `list_lengths` entry equals its list's length, and the arrays keep
their fixed 8-ary shape. -/
def cacheCountInv (s : AllocState) : Prop :=
  s.transfer_caches.length = 8 ∧
  s.my_cache.free_lists.length = 8 ∧
  s.my_cache.list_lengths.length = 8 ∧
  (∀ i < 8, (s.transfer_caches.getD i default).count =
    (((s.transfer_caches.getD i default).list.length : Nat) : Int)) ∧
  (∀ i < 8, s.my_cache.list_lengths.getD i 0 =
    (((s.my_cache.free_lists.getD i []).length : Nat) : Int))

/-- The state produced by the block-transfer step of
`fetchFromTransferCache` satisfies the counting invariant whenever the
entering central list `L` matches its count `n ≥ 1`. -/
theorem cacheCountInv_update (s : AllocState) (c : Nat) (heap : PageHeap)
    (L : List Nat) (n : Nat)
    (hc8 : c < 8)
    (htc : s.transfer_caches.length = 8)
    (hfl : s.my_cache.free_lists.length = 8)
    (hll : s.my_cache.list_lengths.length = 8)
    (htinv : ∀ i < 8, (s.transfer_caches.getD i default).count =
      (((s.transfer_caches.getD i default).list.length : Nat) : Int))
    (hcinv : ∀ i < 8, s.my_cache.list_lengths.getD i 0 =
      (((s.my_cache.free_lists.getD i []).length : Nat) : Int))
    (hn : L.length = n) (h1 : 1 ≤ n) :
    cacheCountInv
      { s with
        page_heap := heap,
        transfer_caches := s.transfer_caches.set c
          ⟨L.drop (tailStop n (min (n : Int) 32)), (n : Int) - min (n : Int) 32⟩,
        my_cache :=
          ⟨s.my_cache.free_lists.set c (L.take (tailStop n (min (n : Int) 32))),
           s.my_cache.list_lengths.set c (min (n : Int) 32)⟩ } := by
  refine ⟨by simp [htc], by simp [hfl], by simp [hll], ?_, ?_⟩
  · intro i hi
    by_cases hic : i = c
    · subst hic
      show ((s.transfer_caches.set i _).getD i default).count =
        ((((s.transfer_caches.set i _).getD i default).list.length : Nat) : Int)
      rw [getD_set_self _ i _ default (by omega)]
      show (n : Int) - min (n : Int) 32 =
        (((L.drop (tailStop n (min (n : Int) 32))).length : Nat) : Int)
      rw [List.length_drop, hn]
      unfold tailStop
      omega
    · show ((s.transfer_caches.set c _).getD i default).count =
        ((((s.transfer_caches.set c _).getD i default).list.length : Nat) : Int)
      rw [getD_set_ne _ c i _ default (fun hh => hic hh.symm)]
      exact htinv i hi
  · intro i hi
    by_cases hic : i = c
    · subst hic
      show (s.my_cache.list_lengths.set i _).getD i 0 =
        ((((s.my_cache.free_lists.set i _).getD i []).length : Nat) : Int)
      rw [getD_set_self _ i _ 0 (by omega), getD_set_self _ i _ [] (by omega)]
      rw [List.length_take, hn]
      unfold tailStop
      omega
    · show (s.my_cache.list_lengths.set c _).getD i 0 =
        ((((s.my_cache.free_lists.set c _).getD i []).length : Nat) : Int)
      rw [getD_set_ne _ c i _ 0 (fun hh => hic hh.symm),
        getD_set_ne _ c i _ [] (fun hh => hic hh.symm)]
      exact hcinv i hi

/-- `releaseToTransferCache` preserves the counting invariant. -/
theorem release_cacheCountInv (s : AllocState) (c : Nat) (h : cacheCountInv s) :
    cacheCountInv (MyAllocator.releaseToTransferCache s c) := by
  obtain ⟨htc, hfl, hll, htinv, hcinv⟩ := h
  simp only [MyAllocator.releaseToTransferCache]
  split_ifs with hguard
  · exact ⟨htc, hfl, hll, htinv, hcinv⟩
  · push_neg at hguard
    obtain ⟨hc8, hnz⟩ := hguard
    have hc8' : c < 8 := by omega
    have hlenc := hcinv c hc8'
    have hne : s.my_cache.free_lists.getD c [] ≠ [] := by
      intro h0
      rw [h0] at hlenc
      apply hnz
      rw [hlenc]
      simp
    obtain ⟨x, xs, hx⟩ := List.exists_cons_of_ne_nil hne
    rw [hx]
    have hts : tailStop (x :: xs).length (s.my_cache.list_lengths.getD c 0) =
        (x :: xs).length := by
      rw [hlenc, hx]
      unfold tailStop
      have : 1 ≤ (x :: xs).length := by simp
      omega
    rw [hts, List.take_length]
    refine ⟨by simp [htc], by simp [hfl], by simp [hll], ?_, ?_⟩
    · intro i hi
      by_cases hic : i = c
      · subst hic
        show ((s.transfer_caches.set i _).getD i default).count =
          ((((s.transfer_caches.set i _).getD i default).list.length : Nat) : Int)
        rw [getD_set_self _ i _ default (by omega)]
        show (s.transfer_caches.getD i default).count + s.my_cache.list_lengths.getD i 0 =
          ((((x :: xs) ++ (s.transfer_caches.getD i default).list).length : Nat) : Int)
        rw [htinv i hi, hlenc, hx, List.length_append]
        push_cast
        ring
      · show ((s.transfer_caches.set c _).getD i default).count =
          ((((s.transfer_caches.set c _).getD i default).list.length : Nat) : Int)
        rw [getD_set_ne _ c i _ default (fun hh => hic hh.symm)]
        exact htinv i hi
    · intro i hi
      by_cases hic : i = c
      · subst hic
        show (s.my_cache.list_lengths.set i 0).getD i 0 =
          ((((s.my_cache.free_lists.set i []).getD i []).length : Nat) : Int)
        rw [getD_set_self _ i _ 0 (by omega), getD_set_self _ i _ [] (by omega)]
        simp
      · show (s.my_cache.list_lengths.set c 0).getD i 0 =
          ((((s.my_cache.free_lists.set c []).getD i []).length : Nat) : Int)
        rw [getD_set_ne _ c i _ 0 (fun hh => hic hh.symm),
          getD_set_ne _ c i _ [] (fun hh => hic hh.symm)]
        exact hcinv i hi

/-- `fetchFromTransferCache` preserves the counting invariant. -/
theorem fetch_cacheCountInv (s : AllocState) (os : Option Nat) (c : Nat)
    (h : cacheCountInv s) : cacheCountInv (MyAllocator.fetchFromTransferCache s os c) := by
  obtain ⟨htc, hfl, hll, htinv, hcinv⟩ := h
  by_cases hc8 : c ≥ 8
  · simp only [MyAllocator.fetchFromTransferCache, if_pos hc8]
    exact ⟨htc, hfl, hll, htinv, hcinv⟩
  · have hc8' : c < 8 := by omega
    have hbs : getClassSizeFromIndex c ≠ 0 := by have := classBytes_pos hc8'; omega
    simp only [MyAllocator.fetchFromTransferCache, if_neg hc8]
    by_cases hcz : (s.transfer_caches.getD c default).count = 0
    · have hlz : (s.transfer_caches.getD c default).list = [] := by
        have ht := htinv c hc8'
        rw [hcz] at ht
        exact List.eq_nil_of_length_eq_zero (by exact_mod_cast ht.symm)
      rcases os with _ | start
      · simp only [hcz, if_pos rfl, if_neg hbs, PageHeap.allocateSpan]
        exact ⟨htc, hfl, hll, htinv, hcinv⟩
      · by_cases hpool : spanMemorySize < s.page_heap.span_offset + sizeofSpan
        · have hfail := allocateSpan_fail s.page_heap (some start) 1 (Or.inr hpool)
          simp only [hcz, if_pos rfl, if_neg hbs, hfail]
          exact ⟨htc, hfl, hll, htinv, hcinv⟩
        · have halloc := allocateSpan_some s.page_heap start 1 (by omega)
          have hn1 : 1 ≤ classBlocksPerPage c := by
            have key : ∀ c' < 8, 1 ≤ classBlocksPerPage c' := by decide
            exact key c hc8'
          simp only [hcz, if_pos rfl, if_neg hbs, halloc, hlz, zero_add]
          simp only [show (if pageBytes / (getClassSizeFromIndex c + sizeofBlockHeader) = 0 then 1
              else pageBytes / (getClassSizeFromIndex c + sizeofBlockHeader)) =
              classBlocksPerPage c from rfl]
          obtain ⟨m, hm⟩ : ∃ m, classBlocksPerPage c = m + 1 :=
            ⟨classBlocksPerPage c - 1, by omega⟩
          rw [hm]
          simp only [carve, if_true, zero_add]
          have hcl : ((start * pageBytes + m * (getClassSizeFromIndex c + sizeofBlockHeader)) ::
              carve (start * pageBytes) (getClassSizeFromIndex c + sizeofBlockHeader) m []).length
                = m + 1 := by
            simp [carve_length]
          rw [hcl]
          exact cacheCountInv_update s c _ _ (m + 1) hc8' htc hfl hll htinv hcinv hcl
            (by omega)
    · have hLne : (s.transfer_caches.getD c default).list ≠ [] := by
        intro h0
        apply hcz
        rw [htinv c hc8', h0]
        simp
      obtain ⟨x, xs, hx⟩ := List.exists_cons_of_ne_nil hLne
      simp only [if_neg hcz]
      rw [htinv c hc8', hx]
      exact cacheCountInv_update s c _ _ ((x :: xs).length) hc8' htc hfl hll htinv hcinv rfl
        (by simp)

/-- C7: the transfer-cache counting invariant — `count` equals the number
of blocks reachable from the list head for every size class — holds in the
initial state and is preserved by `fetchFromTransferCache` (both the
page-heap refill and the transfer to the thread cache) and by
`releaseToTransferCache`. -/
theorem C7_transfer_count_invariant :
    cacheCountInv initState ∧
    ∀ (s : AllocState) (os : Option Nat) (i : Nat), cacheCountInv s →
      cacheCountInv (MyAllocator.fetchFromTransferCache s os i) ∧
      cacheCountInv (MyAllocator.releaseToTransferCache s i) :=
  ⟨by unfold cacheCountInv; decide,
   fun s os i h => ⟨fetch_cacheCountInv s os i h, release_cacheCountInv s i h⟩⟩

/-- Witness for C7: the invariant propagated through a concrete refill of
class 0 from the initial state. -/
theorem C7_transfer_count_invariant_witness :
    cacheCountInv initState ∧
    cacheCountInv (MyAllocator.fetchFromTransferCache initState (some 5) 0) ∧
    cacheCountInv (MyAllocator.releaseToTransferCache initState 0) :=
  ⟨C7_transfer_count_invariant.1,
   (C7_transfer_count_invariant.2 initState (some 5) 0
      (by unfold cacheCountInv; decide)).1,
   (C7_transfer_count_invariant.2 initState (some 5) 0
      (by unfold cacheCountInv; decide)).2⟩

/-! ### Page-map lemmas for claim C8 -/

theorem mapFind_eq_none_iff (m : List (Nat × Span)) (k : Nat) :
    mapFind m k = none ↔ ∀ e ∈ m, e.1 ≠ k := by
  simp [mapFind, List.find?_eq_none]

theorem mem_mapInsert {m : List (Nat × Span)} {k : Nat} {v : Span} {e : Nat × Span} :
    e ∈ mapInsert m k v ↔ e = (k, v) ∨ (e ∈ m ∧ e.1 ≠ k) := by
  simp [mapInsert, List.mem_filter]

theorem mem_mapErase {m : List (Nat × Span)} {k : Nat} {e : Nat × Span} :
    e ∈ mapErase m k ↔ e ∈ m ∧ e.1 ≠ k := by
  simp [mapErase, List.mem_filter]

theorem mapFind_mapInsert_self (m : List (Nat × Span)) (k : Nat) (v : Span) :
    mapFind (mapInsert m k v) k = some v := by
  simp [mapFind, mapInsert]

theorem find?_filter_ne (m : List (Nat × Span)) (k q : Nat) (h : q ≠ k) :
    (m.filter (fun e => e.1 != k)).find? (fun e => e.1 == q) =
      m.find? (fun e => e.1 == q) := by
  induction m with
  | nil => rfl
  | cons a as ih =>
      by_cases ha : a.1 = k
      · have hf : (a.1 != k) = false := by simp [ha]
        have haq : (a.1 == q) = false := by rw [ha]; simp; omega
        simp [List.filter_cons, List.find?_cons, hf, haq, ih]
      · have hf : (a.1 != k) = true := by simp [ha]
        by_cases haq : a.1 = q
        · have hq : (a.1 == q) = true := by simp [haq]
          simp [List.filter_cons, List.find?_cons, hf, hq]
        · have hq : (a.1 == q) = false := by simp [haq]
          simp [List.filter_cons, List.find?_cons, hf, hq, ih]

theorem mapFind_mapInsert_ne (m : List (Nat × Span)) (k : Nat) (v : Span) (q : Nat)
    (h : q ≠ k) : mapFind (mapInsert m k v) q = mapFind m q := by
  have hk : (k == q) = false := by simp; omega
  simp [mapFind, mapInsert, List.find?_cons, hk, find?_filter_ne m k q h]

theorem mapFind_mapErase_self (m : List (Nat × Span)) (k : Nat) :
    mapFind (mapErase m k) k = none := by
  rw [mapFind_eq_none_iff]
  intro e he
  exact (mem_mapErase.mp he).2

theorem mapFind_mapErase_ne (m : List (Nat × Span)) (k q : Nat) (h : q ≠ k) :
    mapFind (mapErase m k) q = mapFind m q := by
  simp [mapFind, mapErase, find?_filter_ne m k q h]

theorem pairwise_mapInsert (m : List (Nat × Span)) (k : Nat) (v : Span)
    (hp : m.Pairwise (fun a b => a.1 ≠ b.1)) :
    (mapInsert m k v).Pairwise (fun a b => a.1 ≠ b.1) := by
  unfold mapInsert
  refine List.Pairwise.cons ?_ (hp.filter _)
  intro e he
  have h2 := (List.mem_filter.mp he).2
  simp at h2 ⊢
  omega

theorem pairwise_mapErase (m : List (Nat × Span)) (k : Nat)
    (hp : m.Pairwise (fun a b => a.1 ≠ b.1)) :
    (mapErase m k).Pairwise (fun a b => a.1 ≠ b.1) :=
  hp.filter _

theorem mem_insertRange {m : List (Nat × Span)} {start : Nat} {sp : Span} {n : Nat}
    {e : Nat × Span} :
    e ∈ insertRange m start sp n ↔
      (∃ i < n, e = (start + i, sp)) ∨
      (e ∈ m ∧ ¬(start ≤ e.1 ∧ e.1 < start + n)) := by
  induction n with
  | zero => simp [insertRange]
  | succ n ih =>
      constructor
      · intro h
        rcases mem_mapInsert.mp h with rfl | ⟨hmem, hne⟩
        · exact Or.inl ⟨n, by omega, rfl⟩
        · rcases ih.mp hmem with ⟨i, hi, rfl⟩ | ⟨hm, hout⟩
          · exact Or.inl ⟨i, by omega, rfl⟩
          · refine Or.inr ⟨hm, ?_⟩
            rintro ⟨h1, h2⟩
            exact hout ⟨h1, by omega⟩
      · rintro (⟨i, hi, rfl⟩ | ⟨hm, hout⟩)
        · by_cases hin : i = n
          · subst hin
            exact mem_mapInsert.mpr (Or.inl rfl)
          · refine mem_mapInsert.mpr (Or.inr ⟨ih.mpr (Or.inl ⟨i, by omega, rfl⟩), ?_⟩)
            simp
            omega
        · refine mem_mapInsert.mpr (Or.inr ⟨ih.mpr (Or.inr ⟨hm, ?_⟩), ?_⟩)
          · rintro ⟨h1, h2⟩
            exact hout ⟨h1, by omega⟩
          · intro hk
            exact hout ⟨by omega, by omega⟩

theorem mapFind_insertRange_in (m : List (Nat × Span)) (start : Nat) (sp : Span)
    (n q : Nat) (h1 : start ≤ q) (h2 : q < start + n) :
    mapFind (insertRange m start sp n) q = some sp := by
  induction n with
  | zero => omega
  | succ n ih =>
      by_cases hq : q = start + n
      · subst hq
        exact mapFind_mapInsert_self _ _ _
      · rw [insertRange, mapFind_mapInsert_ne _ _ _ _ hq]
        exact ih (by omega)

theorem mapFind_insertRange_out (m : List (Nat × Span)) (start : Nat) (sp : Span)
    (n q : Nat) (h : ¬(start ≤ q ∧ q < start + n)) :
    mapFind (insertRange m start sp n) q = mapFind m q := by
  induction n with
  | zero => rfl
  | succ n ih =>
      rw [insertRange, mapFind_mapInsert_ne _ _ _ _ (by omega)]
      exact ih (by omega)

theorem pairwise_insertRange (m : List (Nat × Span)) (start : Nat) (sp : Span) (n : Nat)
    (hp : m.Pairwise (fun a b => a.1 ≠ b.1)) :
    (insertRange m start sp n).Pairwise (fun a b => a.1 ≠ b.1) := by
  induction n with
  | zero => exact hp
  | succ n ih => exact pairwise_mapInsert _ _ _ ih

theorem mem_eraseRange {m : List (Nat × Span)} {start n : Nat} {e : Nat × Span} :
    e ∈ eraseRange m start n ↔ e ∈ m ∧ ¬(start ≤ e.1 ∧ e.1 < start + n) := by
  induction n with
  | zero => simp [eraseRange]
  | succ n ih =>
      rw [eraseRange, mem_mapErase, ih]
      constructor
      · rintro ⟨⟨hm, hout⟩, hne⟩
        refine ⟨hm, ?_⟩
        rintro ⟨h1, h2⟩
        exact hout ⟨h1, by omega⟩
      · rintro ⟨hm, hout⟩
        refine ⟨⟨hm, ?_⟩, ?_⟩
        · rintro ⟨h1, h2⟩
          exact hout ⟨h1, by omega⟩
        · intro hk
          exact hout ⟨by omega, by omega⟩

theorem mapFind_eraseRange_in (m : List (Nat × Span)) (start n q : Nat)
    (h1 : start ≤ q) (h2 : q < start + n) :
    mapFind (eraseRange m start n) q = none := by
  rw [mapFind_eq_none_iff]
  intro e he hk
  exact (mem_eraseRange.mp he).2 ⟨by omega, by omega⟩

theorem mapFind_eraseRange_out (m : List (Nat × Span)) (start n q : Nat)
    (h : ¬(start ≤ q ∧ q < start + n)) :
    mapFind (eraseRange m start n) q = mapFind m q := by
  induction n with
  | zero => rfl
  | succ n ih =>
      rw [eraseRange, mapFind_mapErase_ne _ _ _ (by omega)]
      exact ih (by omega)

theorem pairwise_eraseRange (m : List (Nat × Span)) (start n : Nat)
    (hp : m.Pairwise (fun a b => a.1 ≠ b.1)) :
    (eraseRange m start n).Pairwise (fun a b => a.1 ≠ b.1) := by
  induction n with
  | zero => exact hp
  | succ n ih => exact pairwise_mapErase _ _ ih

/-- Page `q` lies inside span `sp`. -/
def spanCovers (sp : Span) (q : Nat) : Prop :=
  sp.start_page_id ≤ q ∧ q < sp.start_page_id + sp.num_pages

/-- What `mmap` guarantees for a fresh anonymous mapping: the granted page
range overlaps no page currently live in the ownership index (every live
mapping of the allocator is recorded there). -/
def osFresh (h : PageHeap) (start n : Nat) : Prop :=
  ∀ i < n, mapFind h.page_map (start + i) = none

/-- Page-heap states reachable from the empty heap by `allocateSpan` calls
(successful, with an OS-fresh region, or failed) and by `deallocateSpan`
calls on spans recovered through `lookupSpan`, exactly as `deallocate`
does. -/
inductive ReachableHeap : PageHeap → Prop
  | init : ReachableHeap ⟨[], 0⟩
  | allocOk {h : PageHeap} (start n : Nat) :
      ReachableHeap h → osFresh h start n →
      ReachableHeap (h.allocateSpan (some start) n).2
  | allocFail {h : PageHeap} (n : Nat) :
      ReachableHeap h → ReachableHeap (h.allocateSpan none n).2
  | dealloc {h : PageHeap} (a : Nat) (sp : Span) :
      ReachableHeap h → h.lookupSpan a = some sp →
      ReachableHeap (h.deallocateSpan sp)

/-- The ownership-index invariant: keys are pairwise distinct, every entry's
key is covered by its span, and every page covered by a live span maps to
that span. -/
def pageInv (h : PageHeap) : Prop :=
  h.page_map.Pairwise (fun a b => a.1 ≠ b.1) ∧
  (∀ e ∈ h.page_map, spanCovers e.2 e.1) ∧
  (∀ e ∈ h.page_map, ∀ q, spanCovers e.2 q → mapFind h.page_map q = some e.2)

theorem pageInv_init : pageInv ⟨[], 0⟩ := by
  refine ⟨List.Pairwise.nil, ?_, ?_⟩ <;> intro e he <;> cases he

theorem pageInv_allocOk (h : PageHeap) (start n : Nat)
    (hinv : pageInv h) (hfresh : osFresh h start n) :
    pageInv (h.allocateSpan (some start) n).2 := by
  obtain ⟨hpw, hcov, hcomp⟩ := hinv
  unfold PageHeap.allocateSpan
  split_ifs with hpool
  · exact ⟨hpw, hcov, hcomp⟩
  · refine ⟨pairwise_insertRange _ _ _ _ hpw, ?_, ?_⟩
    · intro e he
      rcases mem_insertRange.mp he with ⟨i, hi, rfl⟩ | ⟨hm, hout⟩
      · simp [spanCovers]
        omega
      · exact hcov e hm
    · intro e he q hq
      rcases mem_insertRange.mp he with ⟨i, hi, rfl⟩ | ⟨hm, hout⟩
      · exact mapFind_insertRange_in _ _ _ _ _ hq.1 hq.2
      · have hfind := hcomp e hm q hq
        have hqout : ¬(start ≤ q ∧ q < start + n) := by
          rintro ⟨hq1, hq2⟩
          have hni := hfresh (q - start) (by omega)
          rw [show start + (q - start) = q by omega] at hni
          rw [hni] at hfind
          cases hfind
        rw [mapFind_insertRange_out _ _ _ _ _ hqout]
        exact hfind

theorem pageInv_dealloc (h : PageHeap) (sp : Span) (k : Nat)
    (hinv : pageInv h) (hfound : mapFind h.page_map k = some sp) :
    pageInv (h.deallocateSpan sp) := by
  obtain ⟨hpw, hcov, hcomp⟩ := hinv
  have hmem : (k, sp) ∈ h.page_map := by
    unfold mapFind at hfound
    rcases Option.map_eq_some'.mp hfound with ⟨e, he, hesnd⟩
    have hp := List.find?_some he
    have hmm := List.mem_of_find?_eq_some he
    obtain ⟨e1, e2⟩ := e
    simp at hp hesnd
    subst hp
    subst hesnd
    exact hmm
  unfold PageHeap.deallocateSpan
  refine ⟨pairwise_eraseRange _ _ _ hpw, ?_, ?_⟩
  · intro e he
    exact hcov e (mem_eraseRange.mp he).1
  · intro e he q hq
    obtain ⟨hm, hout⟩ := mem_eraseRange.mp he
    have hnesp : e.2 ≠ sp := by
      intro hesp
      apply hout
      have hc := hcov e hm
      rw [hesp] at hc
      exact hc
    have hqout : ¬(sp.start_page_id ≤ q ∧ q < sp.start_page_id + sp.num_pages) := by
      rintro hq2
      have h1 := hcomp e hm q hq
      have h2 := hcomp (k, sp) hmem q hq2
      rw [h1] at h2
      exact hnesp (by injection h2)
    rw [mapFind_eraseRange_out _ _ _ _ hqout]
    exact hcomp e hm q hq

theorem reachable_pageInv {h : PageHeap} (hr : ReachableHeap h) : pageInv h := by
  induction hr with
  | init => exact pageInv_init
  | allocOk start n _ hfresh ih => exact pageInv_allocOk _ start n ih hfresh
  | allocFail n _ ih => exact ih
  | dealloc a sp _ hlook ih =>
      exact pageInv_dealloc _ sp _ ih (by simpa [PageHeap.lookupSpan] using hlook)

theorem mapKeys_unique (m : List (Nat × Span))
    (hpw : m.Pairwise (fun a b => a.1 ≠ b.1)) (p : Nat) (sp sp' : Span)
    (h1 : (p, sp) ∈ m) (h2 : (p, sp') ∈ m) : sp = sp' := by
  induction m with
  | nil => cases h1
  | cons a as ih =>
      obtain ⟨hhead, htail⟩ := List.pairwise_cons.mp hpw
      rcases List.mem_cons.mp h1 with he1 | t1 <;> rcases List.mem_cons.mp h2 with he2 | t2
      · rw [← he1] at he2
        exact ((Prod.ext_iff.mp he2).2).symm
      · exact absurd rfl (by have := hhead _ t2; rw [← he1] at this; exact this)
      · exact absurd rfl (by have := hhead _ t1; rw [← he2] at this; exact this)
      · exact ih htail t1 t2

theorem countP_key_eq_one (m : List (Nat × Span)) (q : Nat)
    (hpw : m.Pairwise (fun a b => a.1 ≠ b.1)) (hex : ∃ sp, (q, sp) ∈ m) :
    m.countP (fun e => e.1 == q) = 1 := by
  induction m with
  | nil =>
      rcases hex with ⟨sp, hmem⟩
      cases hmem
  | cons a as ih =>
      obtain ⟨hhead, htail⟩ := List.pairwise_cons.mp hpw
      rcases hex with ⟨sp, hmem⟩
      rcases List.mem_cons.mp hmem with rfl | htl
      · have hz : as.countP (fun e => e.1 == q) = 0 := by
          rw [List.countP_eq_zero]
          intro e he
          have hne := hhead e he
          simp at hne ⊢
          omega
        rw [List.countP_cons]
        simp [hz]
      · have hq : (a.1 == q) = false := by
          have := hhead _ htl
          simp at this ⊢
          omega
        rw [List.countP_cons, hq]
        simp [ih htail ⟨sp, htl⟩]

/-- C8: in every page-heap state reachable by `allocateSpan` /
`deallocateSpan` sequences, live spans never overlap, every page covered by
a live span appears exactly once in the ownership index (it maps to that
span and its key occurs once), and a page id maps to at most one live
span. -/
theorem C8_page_ownership_invariant {h : PageHeap} (hr : ReachableHeap h) :
    (∀ p q : Nat, ∀ sp sp' : Span, (p, sp) ∈ h.page_map → (q, sp') ∈ h.page_map →
       sp ≠ sp' → ∀ r : Nat, spanCovers sp r → ¬spanCovers sp' r) ∧
    (∀ p : Nat, ∀ sp : Span, (p, sp) ∈ h.page_map → ∀ q : Nat, spanCovers sp q →
       mapFind h.page_map q = some sp ∧
       h.page_map.countP (fun e => e.1 == q) = 1) ∧
    (∀ p : Nat, ∀ sp sp' : Span, (p, sp) ∈ h.page_map → (p, sp') ∈ h.page_map →
       sp = sp') := by
  obtain ⟨hpw, hcov, hcomp⟩ := reachable_pageInv hr
  refine ⟨?_, ?_, ?_⟩
  · intro p q sp sp' h1 h2 hne r hr1 hr2
    have f1 := hcomp (p, sp) h1 r hr1
    have f2 := hcomp (q, sp') h2 r hr2
    rw [f1] at f2
    exact hne (by injection f2)
  · intro p sp h1 q hq
    have f1 := hcomp (p, sp) h1 q hq
    refine ⟨f1, ?_⟩
    have hex : ∃ sp2, (q, sp2) ∈ h.page_map := by
      unfold mapFind at f1
      rcases Option.map_eq_some'.mp f1 with ⟨e, he, hesnd⟩
      have hp := List.find?_some he
      have hmm := List.mem_of_find?_eq_some he
      obtain ⟨e1, e2⟩ := e
      simp at hp
      subst hp
      exact ⟨e2, hmm⟩
    exact countP_key_eq_one _ q hpw hex
  · intro p sp sp' h1 h2
    exact mapKeys_unique _ hpw p sp sp' h1 h2

/-- Witness for C8: after one two-page span allocation at page 5, page 6
maps to that span, appears exactly once, and the hypotheses hold. -/
theorem C8_page_ownership_invariant_witness :
    ((5, (⟨5, 2⟩ : Span)) ∈
        ((⟨[], 0⟩ : PageHeap).allocateSpan (some 5) 2).2.page_map ∧
      spanCovers ⟨5, 2⟩ 6) ∧
    (mapFind ((⟨[], 0⟩ : PageHeap).allocateSpan (some 5) 2).2.page_map 6 =
        some ⟨5, 2⟩ ∧
      ((⟨[], 0⟩ : PageHeap).allocateSpan (some 5) 2).2.page_map.countP
        (fun e => e.1 == 6) = 1) :=
  ⟨⟨by decide, by unfold spanCovers; decide⟩,
   (C8_page_ownership_invariant
      (ReachableHeap.allocOk 5 2 ReachableHeap.init
        (by unfold osFresh; decide))).2.1
     5 ⟨5, 2⟩ (by decide) 6 (by unfold spanCovers; decide)⟩
